import Mathlib

/-!
Verification of the darkweb-monitor detection-and-alerting pipeline.

This file gives a shallow embedding of the core pipeline:
`core/analyzer.py` (matcher + severity classifier + alert assembly),
`core/analyzer_enhanced.py` (priority/category/reliability filter), and
`scripts/start_monitoring_free.py` (dedup cache and its persistence),
and proves the specified properties about the embedded definitions.

Modelling conventions:
- Python strings are Lean `String`s; `str.lower()` is modelled by mapping
  `Char.toLower` over the characters (the registry data is ASCII plus
  Japanese script, on which ASCII lowering agrees with Python's `lower`).
- Python's `a in b` substring test is `substrS`.
- `fuzzywuzzy.fuzz.partial_ratio` is an external library; it is modelled as
  an abstract score function `pr : String → String → Nat` passed as a
  parameter, so theorems hold for every possible scorer.
- Python floats are modelled as `Rat`.
- `re` patterns are embedded as a small regular-expression language with a
  derivative-based matcher; `re.IGNORECASE` is modelled by lowering the
  text (the patterns are already lower case).
- Wall-clock values (`datetime.utcnow`, working hours) are modelled as
  parameters; the `analysis_timestamp` field, which no property mentions,
  is not modelled.
-/

/-- Lower-casing of a string, modelling Python `str.lower()` on the
ASCII + Japanese alphabet used by the program. -/
def lowerStr (s : String) : String := ⟨s.data.map Char.toLower⟩

/-- Python's substring test `n in h` on character lists. -/
def substrL : List Char → List Char → Bool
  | n, [] => n.isEmpty
  | n, h :: t => List.isPrefixOf n (h :: t) || substrL n t

/-- Python's substring test `a in b` on strings. -/
def substrS (a b : String) : Bool := substrL a.data b.data

/-- Case-insensitive substring containment (the sense in which the spec
says a text "contains" a registered term). -/
def containsCI (a b : String) : Bool := substrS (lowerStr a) (lowerStr b)

/-- One character of the Japanese-script character class
`[぀-ゟ゠-ヿ一-鿿]` from `analyzer.py`. -/
def isJapaneseChar (c : Char) : Bool :=
  (0x3040 ≤ c.toNat && c.toNat ≤ 0x309f) ||
  (0x30a0 ≤ c.toNat && c.toNat ≤ 0x30ff) ||
  (0x4e00 ≤ c.toNat && c.toNat ≤ 0x9fff)

/-- `DarkwebAnalyzer._is_japanese`: the text contains a Japanese
script character. -/
def isJapanese (s : String) : Bool := s.data.any isJapaneseChar

/-- Python truthiness of an optional string (`None` and `""` are falsy). -/
def pyTruthy : Option String → Bool
  | none => false
  | some s => !(s == "")

/-- Python `\s` (restricted to the ASCII whitespace characters). -/
def isPySpace (c : Char) : Bool :=
  c = ' ' || c = '\t' || c = '\n' || c = '\r' || c = '\x0b' || c = '\x0c'

/-- Python `str.strip()`: drop leading and trailing whitespace. -/
def pyStrip (s : String) : String :=
  ⟨((s.data.dropWhile isPySpace).reverse.dropWhile isPySpace).reverse⟩

/-! ### A small regular-expression language

Exactly the constructs used by the severity patterns of `analyzer.py`:
literals, an optional single literal (`[s]?`), `\s*`, and alternation
groups of literals. Matching is by Brzozowski derivatives. -/

/-- Regular expressions over characters. -/
inductive RE where
  | eps : RE
  | cls : (Char → Bool) → RE
  | seq : RE → RE → RE
  | alt : RE → RE → RE
  | star : RE → RE

/-- The regular expression accepts the empty string. -/
def RE.nullable : RE → Bool
  | .eps => true
  | .cls _ => false
  | .seq a b => a.nullable && b.nullable
  | .alt a b => a.nullable || b.nullable
  | .star _ => true

/-- Brzozowski derivative of a regular expression by a character. -/
def RE.deriv : RE → Char → RE
  | .eps, _ => .cls (fun _ => false)
  | .cls p, c => if p c then .eps else .cls (fun _ => false)
  | .seq a b, c =>
      if a.nullable then .alt (.seq (a.deriv c) b) (b.deriv c)
      else .seq (a.deriv c) b
  | .alt a b, c => .alt (a.deriv c) (b.deriv c)
  | .star r, c => .seq (r.deriv c) (.star r)

/-- The regular expression matches some prefix of the character list. -/
def RE.matchPre (r : RE) : List Char → Bool
  | [] => r.nullable
  | c :: cs => r.nullable || (r.deriv c).matchPre cs

/-- `re.search`: the regular expression matches somewhere in the list. -/
def RE.search (r : RE) : List Char → Bool
  | [] => r.matchPre []
  | c :: cs => r.matchPre (c :: cs) || r.search cs

/-- String literal as a regular expression. -/
def RE.lit (s : String) : RE :=
  s.data.foldr (fun c r => .seq (.cls (fun x => x == c)) r) .eps

/-- `r?` (used for `[s]?`). -/
def RE.opt (r : RE) : RE := .alt .eps r

/-- `\s*`. -/
def RE.wsStar : RE := .star (.cls isPySpace)

/-- Alternation group of literals, e.g. `(:|=|dump|leak)`. -/
def RE.altLits (l : List String) : RE :=
  l.foldr (fun s r => .alt (.lit s) r) (.cls (fun _ => false))

/-- The `HIGH` severity patterns of `DarkwebAnalyzer.severity_patterns`. -/
def highPatterns : List RE := [
  .seq (.lit "password") (.seq (.opt (.lit "s"))
    (.seq .wsStar (.altLits [":", "=", "dump", "leak"]))),
  .seq (.lit "credential") (.seq (.opt (.lit "s"))
    (.seq .wsStar (.altLits [":", "=", "dump", "leak"]))),
  .seq (.lit "database") (.seq .wsStar (.lit "dump")),
  .seq (.lit "sql") (.seq .wsStar (.lit "dump")),
  .seq (.lit "admin") (.seq .wsStar (.lit "access")),
  .seq (.lit "root") (.seq .wsStar (.lit "access")),
  .seq (.lit "api") (.seq .wsStar (.seq (.lit "key") (.opt (.lit "s")))),
  .seq (.lit "private") (.seq .wsStar (.lit "key")),
  .seq (.lit "secret") (.seq .wsStar (.lit "key")),
  .lit "漏洩", .lit "流出", .lit "ハッキング", .lit "侵入"]

/-- The `MEDIUM` severity patterns. -/
def mediumPatterns : List RE := [
  .seq (.lit "email") (.seq (.opt (.lit "s"))
    (.seq .wsStar (.altLits ["list", "dump", "leak"]))),
  .seq (.lit "user") (.seq (.opt (.lit "s"))
    (.seq .wsStar (.altLits ["list", "data", "info"]))),
  .seq (.lit "employee") (.seq (.opt (.lit "s"))
    (.seq .wsStar (.altLits ["list", "data", "info"]))),
  .seq (.lit "personal") (.seq .wsStar (.lit "data")),
  .lit "個人情報", .lit "メールアドレス", .lit "社員"]

/-- The `LOW` severity patterns. -/
def lowPatterns : List RE := [
  .lit "mention", .lit "discussion", .lit "forum", .lit "thread",
  .lit "言及", .lit "議論"]

/-- Case-insensitive `pattern.search(text)` (`re.IGNORECASE` is modelled
by lowering the text; the patterns are lower case). -/
def searchLower (r : RE) (text : String) : Bool := r.search (lowerStr text).data

/-- `DarkwebAnalyzer._determine_severity`: first tier (HIGH, MEDIUM, LOW)
with a matching pattern wins; otherwise INFO. -/
def determineSeverity (text : String) : String :=
  if highPatterns.any (fun r => searchLower r text) then "HIGH"
  else if mediumPatterns.any (fun r => searchLower r text) then "MEDIUM"
  else if lowPatterns.any (fun r => searchLower r text) then "LOW"
  else "INFO"

example : determineSeverity "Found database dump with passwords" = "HIGH" := by decide
example : determineSeverity "General discussion forum thread" = "LOW" := by decide
example : determineSeverity "hello" = "INFO" := by decide
example : determineSeverity "employee list mention" = "MEDIUM" := by decide

/-! ### The matcher (`DarkwebAnalyzer._find_best_match`) -/

/-- The target registry (`targets.json`): monitored terms plus per-term
priority and category maps (Python dicts as association lists). -/
structure Targets where
  keywords : List String := []
  domains : List String := []
  company_names : List String := []
  priority_targets : List (String × String) := []
  categories : List (String × String) := []
deriving DecidableEq

/-- Running best approximate candidate of `_find_best_match`
(`best_score`, and `best_match` paired with `best_category`;
`none` models Python's `best_match = None`). -/
structure BestState where
  score : Nat
  best : Option (String × String)
deriving DecidableEq

/-- Track the best-scoring approximate candidate (`if score > best_score`). -/
def updBest (st : BestState) (s : Nat) (term cat : String) : BestState :=
  if s > st.score then ⟨s, some (term, cat)⟩ else st

/-- Final step of `_find_best_match`:
`if best_match and best_score >= 85: return (...)` (Python truthiness:
`None` and `""` are falsy). -/
def finishBest (st : BestState) : Option (String × String × Nat) :=
  match st.best with
  | some (t, cat) => if t ≠ "" ∧ st.score ≥ 85 then some (t, cat, st.score) else none
  | none => none

/-- The company-name loop of `_find_best_match`: Japanese terms require an
exact substring hit (immediate return at confidence 100); other terms are
scored approximately by `pr` (modelling `fuzz.partial_ratio`). -/
def companyLoop (pr : String → String → Nat) (text : String) :
    List String → BestState → Option (String × String × Nat)
  | [], st => finishBest st
  | c :: cs, st =>
    if isJapanese c then
      if substrS c text then some (c, "Company Name", 100)
      else companyLoop pr text cs st
    else
      companyLoop pr text cs (updBest st (pr (lowerStr c) text) c "Company Name")

/-- The keyword loop of `_find_best_match`: exact substring hit returns
immediately at confidence 100; keywords longer than 5 characters are also
scored approximately. After the loop, the company-name loop runs. -/
def keywordLoop (pr : String → String → Nat) (text : String)
    (companies : List String) : List String → BestState → Option (String × String × Nat)
  | [], st => companyLoop pr text companies st
  | k :: ks, st =>
    if substrS (lowerStr k) text then some (k, "Keyword", 100)
    else
      keywordLoop pr text companies ks
        (if k.length > 5 then updBest st (pr (lowerStr k) text) k "Keyword" else st)

/-- `DarkwebAnalyzer._find_best_match`: domains first (exact, immediate
return), then keywords, then company names; an approximate candidate is
returned only with score ≥ 85. The score is a `Nat` as `fuzz` scores are
integers 0–100. -/
def findBestMatch (pr : String → String → Nat) (tg : Targets) (text : String) :
    Option (String × String × Nat) :=
  match tg.domains.find? (fun d => substrS (lowerStr d) text) with
  | some d => some (d, "Domain", 100)
  | none => keywordLoop pr text tg.company_names tg.keywords ⟨0, none⟩

/-! ### The base analyzer (`DarkwebAnalyzer.analyze`) -/

/-- A normalized input record (`entry.get(key, '')` defaults modelled by
the fields being plain strings). -/
structure Entry where
  source : String := ""
  title : String := ""
  raw_text : String := ""
  url : String := ""
deriving DecidableEq

/-- An alert: the record fields plus match/severity data, and the fields
added by the enhanced analyzer (with the defaults of absent dict keys). -/
structure Alert where
  source : String := ""
  title : String := ""
  raw_text : String := ""
  url : String := ""
  matched_term : String := ""
  category : String := ""
  confidence_score : Rat := 0
  severity : String := ""
  alert : Bool := false
  target_priority : String := ""
  target_category : String := ""
  source_reliability : Rat := 0
  category_override : Bool := false
  reliability_adjusted : Bool := false
  ea_priority_boost : Bool := false
  ea_category_alert : Bool := false
  ea_source_reliability : Rat := 0
  ea_working_hours : Bool := false
deriving DecidableEq

/-- `DarkwebAnalyzer.analyze`: match against the lowercased concatenation
of title and raw text, reject below confidence 85, classify severity,
assemble the alert. -/
def analyze (pr : String → String → Nat) (tg : Targets) (entry : Entry) :
    Option Alert :=
  let combined := lowerStr (entry.title ++ " " ++ entry.raw_text)
  match findBestMatch pr tg combined with
  | none => none
  | some (t, cat, conf) =>
    if (conf : Rat) < 85 then none
    else some { source := entry.source, title := entry.title,
                raw_text := entry.raw_text, url := entry.url,
                matched_term := t, category := cat,
                confidence_score := (conf : Rat),
                severity := determineSeverity combined,
                alert := true }

example :
    (analyze (fun _ _ => 0) { domains := ["sony.co.jp"] }
      { source := "Test", raw_text := "Found database dump with sony.co.jp employee passwords" }).map
      (fun a => (a.matched_term, a.category, a.confidence_score, a.severity))
    = some ("sony.co.jp", "Domain", 100, "HIGH") := by decide

example :
    analyze (fun _ _ => 0) { domains := ["sony.co.jp"] }
      { source := "Test", raw_text := "nothing to see here" } = none := by decide

/-! ### The enhanced analyzer (`EnhancedAnalyzer`) -/

/-- One entry of `alert_thresholds` (`confidence_score` and
`severity_levels` are optional dict keys). -/
structure ThresholdPolicy where
  confidence_score : Option Rat := none
  severity_levels : Option (List String) := none
deriving DecidableEq

/-- One entry of `category_rules`. -/
structure CategoryRule where
  alert_all : Bool := false
  extra_keywords : List String := []
  focus_keywords : List String := []
deriving DecidableEq

/-- `alert_config.yaml`: thresholds, category rules and source
reliability scores (Python dicts as association lists; reliabilities as
rationals standing for the YAML floats). -/
structure AlertConfig where
  alert_thresholds : List (String × ThresholdPolicy) := []
  category_rules : List (String × CategoryRule) := []
  source_reliability : List (String × Rat) := []
deriving DecidableEq

/-- Python dict lookup `d.get(k)` on an association list. -/
def dictGet {α : Type} (l : List (String × α)) (k : String) : Option α :=
  (l.find? (fun p => p.1 == k)).map (·.2)

/-- `EnhancedAnalyzer._get_target_priority`: exact dict lookup, falling
back to substring containment in either direction, in insertion order. -/
def getTargetPriority (tg : Targets) (term : String) : Option String :=
  match dictGet tg.priority_targets term with
  | some p => some p
  | none =>
    (tg.priority_targets.find? (fun p =>
      substrS (lowerStr p.1) (lowerStr term) || substrS (lowerStr term) (lowerStr p.1))).map (·.2)

/-- `EnhancedAnalyzer._get_target_category`: same lookup against the
category map. -/
def getTargetCategory (tg : Targets) (term : String) : Option String :=
  match dictGet tg.categories term with
  | some c => some c
  | none =>
    (tg.categories.find? (fun p =>
      substrS (lowerStr p.1) (lowerStr term) || substrS (lowerStr term) (lowerStr p.1))).map (·.2)

/-- Resolve the threshold policy used by `_should_alert_by_priority`:
the `"{priority}_PRIORITY"` entry when the priority is truthy and the key
exists, else the `DEFAULT` entry, else the empty policy `{}`. -/
def resolvePolicy (cfg : AlertConfig) (priority : Option String) : ThresholdPolicy :=
  if pyTruthy priority then
    match dictGet cfg.alert_thresholds (priority.getD "" ++ "_PRIORITY") with
    | some c => c
    | none => (dictGet cfg.alert_thresholds "DEFAULT").getD {}
  else (dictGet cfg.alert_thresholds "DEFAULT").getD {}

/-- `EnhancedAnalyzer._should_alert_by_priority`: reject when confidence
is below the policy minimum (default 85) or severity is not in the
policy's allow-list (default `['HIGH', 'MEDIUM']`). -/
def shouldAlertByPriority (cfg : AlertConfig) (alert : Alert)
    (priority : Option String) : Bool :=
  let pol := resolvePolicy cfg priority
  if alert.confidence_score < pol.confidence_score.getD 85 then false
  else if alert.severity ∉ pol.severity_levels.getD ["HIGH", "MEDIUM"] then false
  else true

/-- `EnhancedAnalyzer._apply_category_rules`: an `alert_all` rule forces
severity HIGH; the first extra/focus keyword found in the lowercased raw
text promotes severity one tier (LOW→MEDIUM, MEDIUM→HIGH). -/
def applyCategoryRules (cfg : AlertConfig) (a : Alert) (category : String) : Alert :=
  let rules := (dictGet cfg.category_rules category).getD {}
  let a := if rules.alert_all then { a with severity := "HIGH", category_override := true } else a
  let textLower := lowerStr a.raw_text
  match (rules.extra_keywords ++ rules.focus_keywords).find?
      (fun k => substrS (lowerStr k) textLower) with
  | some _ =>
    if a.severity = "LOW" then { a with severity := "MEDIUM" }
    else if a.severity = "MEDIUM" then { a with severity := "HIGH" }
    else a
  | none => a

/-- `source.split('-')[0]`: the base source name (the characters before
the first `'-'`). -/
def baseSource (s : String) : String := ⟨s.data.takeWhile (fun c => c != '-')⟩

/-- `EnhancedAnalyzer._get_source_reliability`: exact dict lookup, then
the first entry whose key is a case-insensitive substring of the source,
default 0.5. -/
def getSourceReliability (cfg : AlertConfig) (source : String) : Rat :=
  match dictGet cfg.source_reliability source with
  | some v => v
  | none =>
    match cfg.source_reliability.find?
        (fun p => substrS (lowerStr p.1) (lowerStr source)) with
    | some p => p.2
    | none => mkRat 1 2

/-- `EnhancedAnalyzer._adjust_severity_by_source`: resolve reliability for
the base source name; if it is below 0.7 and severity is exactly MEDIUM,
downgrade to LOW; record the reliability on the alert. -/
def adjustSeverityBySource (cfg : AlertConfig) (a : Alert) : Alert :=
  let reliability := getSourceReliability cfg (baseSource a.source)
  let a :=
    if reliability < mkRat 7 10 ∧ a.severity = "MEDIUM" then
      { a with severity := "LOW", reliability_adjusted := true }
    else a
  { a with source_reliability := reliability }

/-- `EnhancedAnalyzer.analyze`: base analysis, then priority filtering,
category rules, reliability adjustment, and enhanced metadata. The
working-hours flag, computed from the wall clock in the source, is an
input `wh`. Note the metadata reliability is resolved for the full
`source` string, while `adjustSeverityBySource` uses the base name. -/
def enhancedAnalyze (pr : String → String → Nat) (tg : Targets)
    (cfg : AlertConfig) (wh : Bool) (entry : Entry) : Option Alert :=
  match analyze pr tg entry with
  | none => none
  | some basic =>
    let priority := getTargetPriority tg basic.matched_term
    let category := getTargetCategory tg basic.matched_term
    if !shouldAlertByPriority cfg basic priority then none
    else
      let a1 := if pyTruthy category then applyCategoryRules cfg basic (category.getD "") else basic
      let a2 := adjustSeverityBySource cfg a1
      some { a2 with
        target_priority := if pyTruthy priority then priority.getD "" else "DEFAULT",
        target_category := if pyTruthy category then category.getD "" else "General",
        ea_priority_boost := priority == some "HIGH",
        ea_category_alert := (match category with
          | some c => (dictGet cfg.category_rules c).isSome
          | none => false),
        ea_source_reliability := getSourceReliability cfg a2.source,
        ea_working_hours := wh }

/-! ### The dedup cache (`FreeAPIMonitor`, `scripts/start_monitoring_free.py`) -/

/-- The dedup cache: `processed_urls` and `processed_hashes` (Python sets
as membership-deduplicated lists). -/
structure DedupState where
  urls : List String := []
  hashes : List String := []
deriving DecidableEq

/-- Python `set.add`. -/
def pyInsert (x : String) (s : List String) : List String :=
  if x ∈ s then s else x :: s

/-- The filter-and-deduplicate loop of `FreeAPIMonitor.monitor_cycle`
(lines 170–188): skip a record whose (truthy) url or content hash was
seen; otherwise accept it into the batch and record both keys. `md5`
models `hashlib.md5(...).hexdigest()`; the content hash is taken of
`source + raw_text`. -/
def dedupRun (md5 : String → String) :
    List Entry → DedupState → List Entry → DedupState × List Entry
  | [], st, acc => (st, acc)
  | r :: rs, st, acc =>
    if r.url ≠ "" ∧ r.url ∈ st.urls then dedupRun md5 rs st acc
    else
      let h := md5 (r.source ++ r.raw_text)
      if h ∈ st.hashes then dedupRun md5 rs st acc
      else dedupRun md5 rs
        ⟨if r.url ≠ "" then pyInsert r.url st.urls else st.urls, pyInsert h st.hashes⟩
        (acc ++ [r])

/-- One cycle's dedup step: the accepted batch (later fed to
`batch_analyze`) and the updated cache. -/
def dedupFilter (md5 : String → String) (st : DedupState) (rs : List Entry) :
    DedupState × List Entry :=
  dedupRun md5 rs st []

/-- `FreeAPIMonitor._save_processed_data`: the persisted file, as its
list of lines — one line per processed URL. Content hashes are not
written. -/
def saveProcessedData (st : DedupState) : List String := st.urls

/-- `FreeAPIMonitor.__init__` + `_load_processed_data`: both sets start
empty and only `processed_urls` is filled from the file's stripped
lines. -/
def loadProcessedData (lines : List String) : DedupState :=
  { urls := lines.map pyStrip, hashes := [] }

/-- Invariant of the running approximate candidate: a "Company Name"
candidate never holds a Japanese term (Japanese company names never enter
the approximate path). -/
def cnNotJapanese (st : BestState) : Prop :=
  ∀ t cat, st.best = some (t, cat) → cat = "Company Name" → isJapanese t = false

/-- The dedup keys of a record are present in a cache state. -/
def keysIn (md5 : String → String) (r : Entry) (st : DedupState) : Prop :=
  md5 (r.source ++ r.raw_text) ∈ st.hashes ∨ (r.url ≠ "" ∧ r.url ∈ st.urls)

/-! ### Helper lemmas about the string model -/

theorem charOfNat_toNat_of_lt {n : Nat} (h : n < 0xd800) :
    (Char.ofNat n).toNat = n := by
  have hv : n.isValidChar := Or.inl h
  simp [Char.ofNat, hv, Char.ofNatAux, Char.toNat, UInt32.toNat, BitVec.toNat_ofNatLt]

theorem charToLower_eq (c : Char) :
    c.toLower = if c.toNat ≥ 65 ∧ c.toNat ≤ 90 then Char.ofNat (c.toNat + 32) else c := rfl

theorem charToLower_idem (c : Char) : c.toLower.toLower = c.toLower := by
  by_cases h : c.toNat ≥ 65 ∧ c.toNat ≤ 90
  · have h1 : c.toLower = Char.ofNat (c.toNat + 32) := by rw [charToLower_eq, if_pos h]
    have h2 : (Char.ofNat (c.toNat + 32)).toNat = c.toNat + 32 :=
      charOfNat_toNat_of_lt (by omega)
    rw [h1, charToLower_eq, h2, if_neg (by omega)]
  · have h1 : c.toLower = c := by rw [charToLower_eq, if_neg h]
    rw [h1, h1]

theorem lowerData_idem (l : List Char) :
    (l.map Char.toLower).map Char.toLower = l.map Char.toLower := by
  rw [List.map_map]
  exact List.map_congr_left (fun c _ => charToLower_idem c)

theorem lowerStr_idem (s : String) : lowerStr (lowerStr s) = lowerStr s := by
  show (⟨(s.data.map Char.toLower).map Char.toLower⟩ : String) = ⟨s.data.map Char.toLower⟩
  rw [lowerData_idem]

theorem lowerStr_append (a b : String) :
    lowerStr (a ++ b) = lowerStr a ++ lowerStr b := by
  show (⟨(a.data ++ b.data).map Char.toLower⟩ : String) = ⟨_⟩
  simp [lowerStr, String.data_append]

theorem substrL_nil_left (l : List Char) : substrL [] l = true := by
  cases l <;> simp [substrL, List.isPrefixOf, List.isEmpty]

theorem substrL_iff_infix {n h : List Char} :
    substrL n h = true ↔ ∃ pre post, h = pre ++ n ++ post := by
  induction h with
  | nil =>
    simp only [substrL, List.isEmpty_iff]
    constructor
    · rintro rfl; exact ⟨[], [], rfl⟩
    · rintro ⟨pre, post, hp⟩
      rcases List.append_eq_nil.mp (List.append_eq_nil.mp hp.symm).1 with ⟨-, h2⟩
      exact h2
  | cons x t ih =>
    simp only [substrL, Bool.or_eq_true, List.isPrefixOf_iff_prefix, ih]
    constructor
    · rintro (⟨post, hp⟩ | ⟨pre, post, rfl⟩)
      · exact ⟨[], post, by rw [← hp]; simp⟩
      · exact ⟨x :: pre, post, rfl⟩
    · rintro ⟨pre, post, hp⟩
      cases pre with
      | nil => exact Or.inl ⟨post, by simpa using hp.symm⟩
      | cons y ys =>
        have : x = y ∧ t = ys ++ n ++ post := by
          simpa using congrArg (fun l => (l.head?, l.tail)) hp
        exact Or.inr ⟨ys, post, this.2⟩

theorem substrL_map {n h : List Char} (f : Char → Char) (hs : substrL n h = true) :
    substrL (n.map f) (h.map f) = true := by
  rcases substrL_iff_infix.mp hs with ⟨pre, post, rfl⟩
  exact substrL_iff_infix.mpr ⟨pre.map f, post.map f, by simp⟩

theorem substrL_append_right {n h : List Char} (h₂ : List Char)
    (hs : substrL n h = true) : substrL n (h ++ h₂) = true := by
  rcases substrL_iff_infix.mp hs with ⟨pre, post, rfl⟩
  exact substrL_iff_infix.mpr ⟨pre, post ++ h₂, by simp⟩

/-- Exact containment implies case-insensitive containment in lowered
text (used for the Japanese company check against lowered text). -/
theorem containsCI_of_substr_lower {c text : String}
    (hs : substrS c (lowerStr text) = true) : containsCI c text = true := by
  have h1 : substrL c.data (text.data.map Char.toLower) = true := hs
  have h2 := substrL_map Char.toLower h1
  rw [lowerData_idem] at h2
  exact h2

/-- Case-insensitive containment in a string extends to any right
extension of that string. -/
theorem containsCI_append_right (a b c : String)
    (hs : containsCI a b = true) : containsCI a (b ++ c) = true := by
  unfold containsCI substrS at hs ⊢
  rw [lowerStr_append, String.data_append]
  exact substrL_append_right _ hs

/-! ### Helper lemmas about the matcher -/

theorem findBestMatch_domain_hit {pr : String → String → Nat} {tg : Targets}
    {text d₀ : String}
    (h : tg.domains.find? (fun d => substrS (lowerStr d) text) = some d₀) :
    findBestMatch pr tg text = some (d₀, "Domain", 100) := by
  unfold findBestMatch
  rw [h]

theorem updBest_score_lt {st : BestState} {s : Nat} {t c : String} {b : Nat}
    (h1 : st.score < b) (h2 : s < b) : (updBest st s t c).score < b := by
  unfold updBest
  split <;> simpa

theorem finishBest_none {st : BestState} (hs : st.score < 85) :
    finishBest st = none := by
  unfold finishBest
  match hb : st.best with
  | none => rfl
  | some (t, cat) =>
    show (if t ≠ "" ∧ st.score ≥ 85 then some (t, cat, st.score) else none) = none
    rw [if_neg]
    rintro ⟨-, hcon⟩
    omega

theorem companyLoop_none (pr : String → String → Nat) (text : String)
    (cs : List String) (st : BestState)
    (hj : ∀ c ∈ cs, isJapanese c = true → substrS c text = false)
    (hf : ∀ c ∈ cs, isJapanese c = false → pr (lowerStr c) text < 85)
    (hs : st.score < 85) : companyLoop pr text cs st = none := by
  induction cs generalizing st with
  | nil => exact finishBest_none hs
  | cons c cs ih =>
    unfold companyLoop
    rcases hjc : isJapanese c with _ | _
    · simp only [Bool.false_eq_true, if_false]
      exact ih _ (fun x hx => hj x (List.mem_cons_of_mem c hx))
        (fun x hx => hf x (List.mem_cons_of_mem c hx))
        (updBest_score_lt hs (hf c (List.mem_cons_self c cs) hjc))
    · simp only [if_true]
      rw [hj c (List.mem_cons_self c cs) hjc]
      simp only [Bool.false_eq_true, if_false]
      exact ih _ (fun x hx => hj x (List.mem_cons_of_mem c hx))
        (fun x hx => hf x (List.mem_cons_of_mem c hx)) hs

theorem keywordLoop_none (pr : String → String → Nat) (text : String)
    (companies ks : List String) (st : BestState)
    (hke : ∀ k ∈ ks, substrS (lowerStr k) text = false)
    (hkf : ∀ k ∈ ks, k.length > 5 → pr (lowerStr k) text < 85)
    (hj : ∀ c ∈ companies, isJapanese c = true → substrS c text = false)
    (hf : ∀ c ∈ companies, isJapanese c = false → pr (lowerStr c) text < 85)
    (hs : st.score < 85) :
    keywordLoop pr text companies ks st = none := by
  induction ks generalizing st with
  | nil => exact companyLoop_none pr text companies st hj hf hs
  | cons k ks ih =>
    unfold keywordLoop
    rw [hke k (List.mem_cons_self k ks)]
    simp only [Bool.false_eq_true, if_false]
    refine ih _ (fun x hx => hke x (List.mem_cons_of_mem k hx))
      (fun x hx => hkf x (List.mem_cons_of_mem k hx)) ?_
    split
    · exact updBest_score_lt hs (hkf k (List.mem_cons_self k ks) (by assumption))
    · exact hs

theorem companyLoop_japanese_first {pr : String → String → Nat} {text : String}
    {cs : List String} {c₀ : String}
    (h : cs.find? (fun c => isJapanese c && substrS c text) = some c₀) :
    ∀ st, companyLoop pr text cs st = some (c₀, "Company Name", 100) := by
  induction cs with
  | nil => simp [List.find?] at h
  | cons c cs ih =>
    intro st
    rcases hp : (isJapanese c && substrS c text) with _ | _
    · have hrw : List.find? (fun c => isJapanese c && substrS c text) (c :: cs)
          = List.find? (fun c => isJapanese c && substrS c text) cs :=
        List.find?_cons_of_neg cs (by simp [hp])
      rw [hrw] at h
      unfold companyLoop
      rcases hj : isJapanese c with _ | _
      · simp only [Bool.false_eq_true, if_false]
        exact ih h _
      · have hsub : substrS c text = false := by
          rcases hsub : substrS c text with _ | _
          · rfl
          · rw [hj, hsub] at hp; simp at hp
        simp only [if_true, hsub, Bool.false_eq_true, if_false]
        exact ih h _
    · have hrw : List.find? (fun c => isJapanese c && substrS c text) (c :: cs)
          = some c := List.find?_cons_of_pos cs hp
      rw [hrw] at h
      obtain rfl : c = c₀ := by simpa using h
      have hp2 : isJapanese c = true ∧ substrS c text = true := by simpa using hp
      unfold companyLoop
      rw [hp2.1, hp2.2]
      simp

theorem keywordLoop_japanese_first {pr : String → String → Nat} {text : String}
    {companies ks : List String} {c₀ : String}
    (hke : ∀ k ∈ ks, substrS (lowerStr k) text = false)
    (h : companies.find? (fun c => isJapanese c && substrS c text) = some c₀) :
    ∀ st, keywordLoop pr text companies ks st = some (c₀, "Company Name", 100) := by
  induction ks with
  | nil => intro st; exact companyLoop_japanese_first h st
  | cons k ks ih =>
    intro st
    unfold keywordLoop
    rw [hke k (List.mem_cons_self k ks)]
    simp only [Bool.false_eq_true, if_false]
    exact ih (fun x hx => hke x (List.mem_cons_of_mem k hx)) _

theorem cnNotJapanese_updBest {st : BestState} {s : Nat} {t cat : String}
    (h : cnNotJapanese st) (ht : cat = "Company Name" → isJapanese t = false) :
    cnNotJapanese (updBest st s t cat) := by
  unfold updBest
  split
  · intro t' cat' hb hc
    obtain ⟨rfl, rfl⟩ : t = t' ∧ cat = cat' := by simpa using hb
    exact ht hc
  · exact h

theorem companyLoop_cn_sound {pr : String → String → Nat} {text : String}
    {cs : List String} {st : BestState} {t : String} {s : Nat}
    (hinv : cnNotJapanese st)
    (h : companyLoop pr text cs st = some (t, "Company Name", s))
    (hjt : isJapanese t = true) : s = 100 ∧ substrS t text = true := by
  induction cs generalizing st with
  | nil =>
    have h' : finishBest st = some (t, "Company Name", s) := h
    unfold finishBest at h'
    match hb : st.best with
    | none => rw [hb] at h'; exact absurd h' (by simp)
    | some (t', cat') =>
      rw [hb] at h'
      simp only [ite_eq_iff, Option.some.injEq, Prod.mk.injEq, reduceCtorEq,
        and_false, or_false] at h'
      obtain ⟨-, rfl, rfl, rfl⟩ := h'
      rw [hinv t' "Company Name" hb rfl] at hjt
      exact absurd hjt (by simp)
  | cons c cs ih =>
    unfold companyLoop at h
    rcases hj : isJapanese c with _ | _
    · rw [hj] at h
      simp only [Bool.false_eq_true, if_false] at h
      exact ih (cnNotJapanese_updBest hinv (fun _ => hj)) h
    · rw [hj] at h
      simp only [if_true] at h
      rcases hsub : substrS c text with _ | _
      · rw [hsub] at h
        simp only [Bool.false_eq_true, if_false] at h
        exact ih hinv h
      · rw [hsub] at h
        simp only [if_true] at h
        obtain ⟨rfl, rfl⟩ : c = t ∧ 100 = s := by simpa using h
        exact ⟨rfl, hsub⟩

theorem keywordLoop_cn_sound {pr : String → String → Nat} {text : String}
    {companies ks : List String} {st : BestState} {t : String} {s : Nat}
    (hinv : cnNotJapanese st)
    (h : keywordLoop pr text companies ks st = some (t, "Company Name", s))
    (hjt : isJapanese t = true) : s = 100 ∧ substrS t text = true := by
  induction ks generalizing st with
  | nil => exact companyLoop_cn_sound hinv h hjt
  | cons k ks ih =>
    unfold keywordLoop at h
    split at h
    · obtain ⟨-, hcat, -⟩ : k = t ∧ "Keyword" = "Company Name" ∧ 100 = s := by
        simp only [Option.some.injEq, Prod.mk.injEq] at h
        exact h
      exact absurd hcat (by decide)
    · split at h
      · exact ih (cnNotJapanese_updBest hinv (fun hc => absurd hc (by decide))) h
      · exact ih hinv h

theorem findBestMatch_cn_sound {pr : String → String → Nat} {tg : Targets}
    {text t : String} {s : Nat}
    (h : findBestMatch pr tg text = some (t, "Company Name", s))
    (hjt : isJapanese t = true) : s = 100 ∧ substrS t text = true := by
  unfold findBestMatch at h
  split at h
  · have h2 := h
    simp only [Option.some.injEq, Prod.mk.injEq] at h2
    exact absurd h2.2.1 (by decide)
  · exact keywordLoop_cn_sound (by intro t' c' hb; simp at hb) h hjt

/-! ### Claim theorems -/

/-- Claim C1: for every registered domain `d` and every input text, if
the text contains `d` case-insensitively as a substring, then `match`
returns the first such domain in registry order with category "Domain"
and confidence exactly 100, regardless of the approximate scorer and of
all keyword and company-name candidates. -/
theorem matcher_domain_precedence (pr : String → String → Nat) (tg : Targets)
    (text : String) (h : ∃ d ∈ tg.domains, containsCI d text = true) :
    ∃ d₀, tg.domains.find? (fun d => containsCI d text) = some d₀ ∧
      findBestMatch pr tg (lowerStr text) = some (d₀, "Domain", 100) := by
  have hsome : (tg.domains.find? (fun d => containsCI d text)).isSome := by
    rw [List.find?_isSome]
    obtain ⟨d, hd, hc⟩ := h
    exact ⟨d, hd, hc⟩
  obtain ⟨d₀, hd₀⟩ := Option.isSome_iff_exists.mp hsome
  exact ⟨d₀, hd₀, findBestMatch_domain_hit hd₀⟩

/-- Witness for C1 at a concrete registry and text. -/
theorem matcher_domain_precedence_witness :
    ∃ d₀, (["example.co.jp", "sony.co.jp"] : List String).find?
        (fun d => containsCI d "Leak at SONY.co.jp now") = some d₀ ∧
      findBestMatch (fun _ _ => 0)
        { domains := ["example.co.jp", "sony.co.jp"], keywords := ["Sony"],
          company_names := ["ソニー"] }
        (lowerStr "Leak at SONY.co.jp now") = some (d₀, "Domain", 100) :=
  matcher_domain_precedence (fun _ _ => 0)
    { domains := ["example.co.jp", "sony.co.jp"], keywords := ["Sony"],
      company_names := ["ソニー"] }
    "Leak at SONY.co.jp now" ⟨"sony.co.jp", by decide, by decide⟩

/-- Claim C2: `classify` returns the first tier among HIGH, MEDIUM, LOW
whose pattern set has a case-insensitive match in the text, INFO when no
tier matches; in particular a text with both a HIGH and a LOW trigger
classifies HIGH. -/
theorem severity_tier_order (text : String) :
    (determineSeverity text = "HIGH" ↔
      highPatterns.any (fun r => searchLower r text) = true)
    ∧ (determineSeverity text = "MEDIUM" ↔
      (highPatterns.any (fun r => searchLower r text) = false ∧
       mediumPatterns.any (fun r => searchLower r text) = true))
    ∧ (determineSeverity text = "LOW" ↔
      (highPatterns.any (fun r => searchLower r text) = false ∧
       mediumPatterns.any (fun r => searchLower r text) = false ∧
       lowPatterns.any (fun r => searchLower r text) = true))
    ∧ (determineSeverity text = "INFO" ↔
      (highPatterns.any (fun r => searchLower r text) = false ∧
       mediumPatterns.any (fun r => searchLower r text) = false ∧
       lowPatterns.any (fun r => searchLower r text) = false))
    ∧ (highPatterns.any (fun r => searchLower r text) = true →
       lowPatterns.any (fun r => searchLower r text) = true →
       determineSeverity text = "HIGH") := by
  rcases h1 : highPatterns.any (fun r => searchLower r text) with _ | _ <;>
    rcases h2 : mediumPatterns.any (fun r => searchLower r text) with _ | _ <;>
      rcases h3 : lowPatterns.any (fun r => searchLower r text) with _ | _ <;>
        simp [determineSeverity, h1, h2, h3]

/-- Witness for C2: a text with both a HIGH and a LOW trigger. -/
theorem severity_tier_order_witness :
    determineSeverity "password leak in forum" = "HIGH" :=
  (severity_tier_order "password leak in forum").2.2.2.2 (by decide) (by decide)

/-- Claim C3: a record whose combined text contains no registered domain,
keyword, or company name as a case-insensitive substring, and whose
approximate scores over the eligible terms (keywords longer than 5
characters; non-Japanese company names) are all strictly below 85, gets
no match and no alert. -/
theorem matcher_no_candidate_no_alert (pr : String → String → Nat)
    (tg : Targets) (entry : Entry)
    (hd : ∀ d ∈ tg.domains,
      containsCI d (entry.title ++ " " ++ entry.raw_text) = false)
    (hk : ∀ k ∈ tg.keywords,
      containsCI k (entry.title ++ " " ++ entry.raw_text) = false)
    (hc : ∀ c ∈ tg.company_names,
      containsCI c (entry.title ++ " " ++ entry.raw_text) = false)
    (hkf : ∀ k ∈ tg.keywords, k.length > 5 →
      pr (lowerStr k) (lowerStr (entry.title ++ " " ++ entry.raw_text)) < 85)
    (hcf : ∀ c ∈ tg.company_names, isJapanese c = false →
      pr (lowerStr c) (lowerStr (entry.title ++ " " ++ entry.raw_text)) < 85) :
    findBestMatch pr tg (lowerStr (entry.title ++ " " ++ entry.raw_text)) = none
    ∧ analyze pr tg entry = none := by
  have hfb : findBestMatch pr tg
      (lowerStr (entry.title ++ " " ++ entry.raw_text)) = none := by
    unfold findBestMatch
    have hdfind : tg.domains.find? (fun d => substrS (lowerStr d)
        (lowerStr (entry.title ++ " " ++ entry.raw_text))) = none := by
      rw [List.find?_eq_none]
      intro d hdm
      have h := hd d hdm
      unfold containsCI at h
      simp [h]
    rw [hdfind]
    apply keywordLoop_none
    · intro k hkm
      have h := hk k hkm
      unfold containsCI at h
      exact h
    · exact hkf
    · intro c hcm hjc
      rcases hx : substrS c (lowerStr (entry.title ++ " " ++ entry.raw_text))
          with _ | _
      · rfl
      · have h2 := containsCI_of_substr_lower hx
        rw [hc c hcm] at h2
        exact absurd h2 (by simp)
    · exact hcf
    · decide
  refine ⟨hfb, ?_⟩
  simp only [analyze, hfb]

/-- Witness for C3 at a concrete registry and record. -/
theorem matcher_no_candidate_no_alert_witness :
    findBestMatch (fun _ _ => 60)
      { domains := ["sony.co.jp"], keywords := ["databreach"],
        company_names := ["ソニー", "Sony Corporation"] }
      (lowerStr ("breaking news" ++ " " ++ "nothing relevant here")) = none
    ∧ analyze (fun _ _ => 60)
      { domains := ["sony.co.jp"], keywords := ["databreach"],
        company_names := ["ソニー", "Sony Corporation"] }
      { source := "Test", title := "breaking news",
        raw_text := "nothing relevant here" } = none :=
  matcher_no_candidate_no_alert (fun _ _ => 60)
    { domains := ["sony.co.jp"], keywords := ["databreach"],
      company_names := ["ソニー", "Sony Corporation"] }
    { source := "Test", title := "breaking news",
      raw_text := "nothing relevant here" }
    (by decide) (by decide) (by decide) (by decide) (by decide)

/-- Claim C7: company-name terms containing Japanese script are matched
only by exact substring occurrence (category "Company Name", confidence
100, immediately on the first such hit once domains and exact keywords
have failed); approximate scoring is never applied to them, so a
Japanese company term absent verbatim from the text yields no
company-name match. -/
theorem matcher_japanese_company (pr : String → String → Nat) (tg : Targets)
    (text : String) :
    (∀ t s, findBestMatch pr tg text = some (t, "Company Name", s) →
      isJapanese t = true → s = 100 ∧ substrS t text = true)
    ∧ (tg.domains.find? (fun d => substrS (lowerStr d) text) = none →
      (∀ k ∈ tg.keywords, substrS (lowerStr k) text = false) →
      ∀ c₀, tg.company_names.find?
          (fun c => isJapanese c && substrS c text) = some c₀ →
        findBestMatch pr tg text = some (c₀, "Company Name", 100)) := by
  constructor
  · intro t s h hj
    exact findBestMatch_cn_sound h hj
  · intro hd hk c₀ hc
    unfold findBestMatch
    rw [hd]
    exact keywordLoop_japanese_first hk hc ⟨0, none⟩

/-- Witness for C7: a Japanese company name matched exactly. -/
theorem matcher_japanese_company_witness :
    findBestMatch (fun _ _ => 0)
      { domains := ["toyota.co.jp"], keywords := ["breach"],
        company_names := ["日産", "トヨタ自動車"] }
      "トヨタ自動車のデータが流出" = some ("トヨタ自動車", "Company Name", 100) :=
  (matcher_japanese_company (fun _ _ => 0)
    { domains := ["toyota.co.jp"], keywords := ["breach"],
      company_names := ["日産", "トヨタ自動車"] }
    "トヨタ自動車のデータが流出").2
    (by decide) (by decide) "トヨタ自動車" (by decide)

/-- Claim C10: `analyze` matches against the lowercased concatenation of
title and raw text, so a registered domain occurring (case-insensitively)
in the title alone produces an alert with the registry-order-first
matching domain as matched term, category "Domain", confidence 100,
whatever the raw text holds. -/
theorem analyze_title_domain_match (pr : String → String → Nat)
    (tg : Targets) (entry : Entry)
    (h : ∃ d ∈ tg.domains, containsCI d entry.title = true) :
    ∃ d₀ a, tg.domains.find?
        (fun d => containsCI d (entry.title ++ " " ++ entry.raw_text)) = some d₀
      ∧ analyze pr tg entry = some a
      ∧ a.matched_term = d₀ ∧ a.category = "Domain" ∧ a.confidence_score = 100 := by
  obtain ⟨d, hd, hc⟩ := h
  have hc2 : containsCI d (entry.title ++ " " ++ entry.raw_text) = true :=
    containsCI_append_right _ _ _ (containsCI_append_right _ _ _ hc)
  have hsome : (tg.domains.find?
      (fun d => containsCI d (entry.title ++ " " ++ entry.raw_text))).isSome :=
    List.find?_isSome.mpr ⟨d, hd, hc2⟩
  obtain ⟨d₀, hd₀⟩ := Option.isSome_iff_exists.mp hsome
  have hfb : findBestMatch pr tg
      (lowerStr (entry.title ++ " " ++ entry.raw_text)) = some (d₀, "Domain", 100) :=
    findBestMatch_domain_hit hd₀
  have ha : analyze pr tg entry =
      some { source := entry.source, title := entry.title,
             raw_text := entry.raw_text, url := entry.url,
             matched_term := d₀, category := "Domain",
             confidence_score := ((100 : Nat) : Rat),
             severity := determineSeverity
               (lowerStr (entry.title ++ " " ++ entry.raw_text)),
             alert := true } := by
    simp only [analyze, hfb]
    rw [if_neg (by norm_num)]
  exact ⟨d₀, _, hd₀, ha, rfl, rfl, by norm_num⟩

/-- Witness for C10: domain in the title only. -/
theorem analyze_title_domain_match_witness :
    ∃ d₀ a, (["sony.co.jp"] : List String).find?
        (fun d => containsCI d ("Dump of SONY.CO.JP data" ++ " " ++ "no terms here")) = some d₀
      ∧ analyze (fun _ _ => 0) { domains := ["sony.co.jp"] }
          { source := "Test", title := "Dump of SONY.CO.JP data",
            raw_text := "no terms here" } = some a
      ∧ a.matched_term = d₀ ∧ a.category = "Domain" ∧ a.confidence_score = 100 :=
  analyze_title_domain_match (fun _ _ => 0) { domains := ["sony.co.jp"] }
    { source := "Test", title := "Dump of SONY.CO.JP data",
      raw_text := "no terms here" }
    ⟨"sony.co.jp", by decide, by decide⟩

/-- Claim C5: the priority filter rejects exactly when confidence is
below the resolved policy's minimum (85 when omitted) or severity is
outside the policy's allow-list (`{HIGH, MEDIUM}` when omitted); under
the default policy a LOW-severity alert is always suppressed; and a
rejected alert makes the enhanced analyzer return no alert. -/
theorem priority_filter_spec (cfg : AlertConfig) (alert : Alert)
    (priority : Option String) :
    (shouldAlertByPriority cfg alert priority = false ↔
      (alert.confidence_score < (resolvePolicy cfg priority).confidence_score.getD 85
       ∨ alert.severity ∉ (resolvePolicy cfg priority).severity_levels.getD ["HIGH", "MEDIUM"]))
    ∧ (resolvePolicy cfg priority = {} → alert.severity = "LOW" →
       shouldAlertByPriority cfg alert priority = false)
    ∧ (∀ (pr : String → String → Nat) (tg : Targets) (wh : Bool)
        (entry : Entry) (basic : Alert),
       analyze pr tg entry = some basic →
       shouldAlertByPriority cfg basic (getTargetPriority tg basic.matched_term) = false →
       enhancedAnalyze pr tg cfg wh entry = none) := by
  have hiff : shouldAlertByPriority cfg alert priority = false ↔
      (alert.confidence_score < (resolvePolicy cfg priority).confidence_score.getD 85
       ∨ alert.severity ∉ (resolvePolicy cfg priority).severity_levels.getD ["HIGH", "MEDIUM"]) := by
    simp only [shouldAlertByPriority]
    split_ifs with h1 h2 <;> simp [*]
  refine ⟨hiff, ?_, ?_⟩
  · intro hpol hsev
    refine hiff.mpr (Or.inr ?_)
    rw [hpol, hsev]
    decide
  · intro pr tg wh entry basic hb hfail
    simp [enhancedAnalyze, hb, hfail]

/-- Witness for C5: a LOW-severity alert at confidence 100 is suppressed
under the default (empty) policy. -/
theorem priority_filter_spec_witness :
    shouldAlertByPriority {} { severity := "LOW", confidence_score := 100 } none = false :=
  (priority_filter_spec {} { severity := "LOW", confidence_score := 100 } none).2.1
    (by decide) rfl

/-- Claim C6: the source-reliability step downgrades severity to LOW
exactly on reliability < 0.7 with severity exactly MEDIUM; any other
severity is left unchanged, so the downgrade is at most one tier and
never produces INFO. -/
theorem reliability_downgrade_spec (cfg : AlertConfig) (a : Alert) :
    (getSourceReliability cfg (baseSource a.source) < mkRat 7 10 → a.severity = "MEDIUM" →
      (adjustSeverityBySource cfg a).severity = "LOW")
    ∧ (a.severity ≠ "MEDIUM" → (adjustSeverityBySource cfg a).severity = a.severity)
    ∧ (¬ getSourceReliability cfg (baseSource a.source) < mkRat 7 10 →
      (adjustSeverityBySource cfg a).severity = a.severity)
    ∧ ((adjustSeverityBySource cfg a).severity = "INFO" → a.severity = "INFO") := by
  by_cases hcond : getSourceReliability cfg (baseSource a.source) < mkRat 7 10
      ∧ a.severity = "MEDIUM"
  · have hsev : (adjustSeverityBySource cfg a).severity = "LOW" := by
      simp [adjustSeverityBySource, hcond]
    refine ⟨fun _ _ => hsev, fun hne => absurd hcond.2 hne,
      fun hnl => absurd hcond.1 hnl, ?_⟩
    rw [hsev]
    intro hinfo
    exact absurd hinfo (by decide)
  · have hsev : (adjustSeverityBySource cfg a).severity = a.severity := by
      simp only [adjustSeverityBySource, if_neg hcond]
    refine ⟨fun h1 h2 => absurd ⟨h1, h2⟩ hcond, fun _ => hsev, fun _ => hsev, ?_⟩
    rw [hsev]
    exact id

/-- Witness for C6: a MEDIUM alert from a 0.3-reliability source becomes
LOW. -/
theorem reliability_downgrade_spec_witness :
    (adjustSeverityBySource { source_reliability := [("darkforum", mkRat 3 10)] }
      { source := "DarkForum-1", severity := "MEDIUM" }).severity = "LOW" :=
  (reliability_downgrade_spec { source_reliability := [("darkforum", mkRat 3 10)] }
    { source := "DarkForum-1", severity := "MEDIUM" }).1 (by decide) rfl

/-! ### Helper lemmas about the dedup cache -/

theorem mem_pyInsert_of_mem {x y : String} {s : List String} (h : x ∈ s) :
    x ∈ pyInsert y s := by
  unfold pyInsert
  split
  · exact h
  · exact List.mem_cons_of_mem _ h

theorem mem_pyInsert_self {y : String} {s : List String} : y ∈ pyInsert y s := by
  unfold pyInsert
  split
  · assumption
  · exact List.mem_cons_self _ _

theorem dedupRun_cons_skip_url {md5 : String → String} {r : Entry}
    {rs : List Entry} {st : DedupState} {acc : List Entry}
    (h1 : r.url ≠ "" ∧ r.url ∈ st.urls) :
    dedupRun md5 (r :: rs) st acc = dedupRun md5 rs st acc := by
  simp [dedupRun, h1]

theorem dedupRun_cons_skip_hash {md5 : String → String} {r : Entry}
    {rs : List Entry} {st : DedupState} {acc : List Entry}
    (h1 : ¬(r.url ≠ "" ∧ r.url ∈ st.urls))
    (h2 : md5 (r.source ++ r.raw_text) ∈ st.hashes) :
    dedupRun md5 (r :: rs) st acc = dedupRun md5 rs st acc := by
  simp [dedupRun, h1, h2]

theorem dedupRun_cons_accept {md5 : String → String} {r : Entry}
    {rs : List Entry} {st : DedupState} {acc : List Entry}
    (h1 : ¬(r.url ≠ "" ∧ r.url ∈ st.urls))
    (h2 : md5 (r.source ++ r.raw_text) ∉ st.hashes) :
    dedupRun md5 (r :: rs) st acc = dedupRun md5 rs
      ⟨if r.url ≠ "" then pyInsert r.url st.urls else st.urls,
       pyInsert (md5 (r.source ++ r.raw_text)) st.hashes⟩ (acc ++ [r]) := by
  simp [dedupRun, h1, h2]

theorem dedupRun_urls_mono (md5 : String → String) (rs : List Entry) :
    ∀ (st : DedupState) (acc : List Entry) (x : String), x ∈ st.urls →
      x ∈ (dedupRun md5 rs st acc).1.urls := by
  induction rs with
  | nil => intro st acc x hx; simpa [dedupRun] using hx
  | cons r rs ih =>
    intro st acc x hx
    by_cases h1 : r.url ≠ "" ∧ r.url ∈ st.urls
    · rw [dedupRun_cons_skip_url h1]; exact ih st acc x hx
    · by_cases h2 : md5 (r.source ++ r.raw_text) ∈ st.hashes
      · rw [dedupRun_cons_skip_hash h1 h2]; exact ih st acc x hx
      · rw [dedupRun_cons_accept h1 h2]
        apply ih
        split
        · exact mem_pyInsert_of_mem hx
        · exact hx

theorem dedupRun_hashes_mono (md5 : String → String) (rs : List Entry) :
    ∀ (st : DedupState) (acc : List Entry) (x : String), x ∈ st.hashes →
      x ∈ (dedupRun md5 rs st acc).1.hashes := by
  induction rs with
  | nil => intro st acc x hx; simpa [dedupRun] using hx
  | cons r rs ih =>
    intro st acc x hx
    by_cases h1 : r.url ≠ "" ∧ r.url ∈ st.urls
    · rw [dedupRun_cons_skip_url h1]; exact ih st acc x hx
    · by_cases h2 : md5 (r.source ++ r.raw_text) ∈ st.hashes
      · rw [dedupRun_cons_skip_hash h1 h2]; exact ih st acc x hx
      · rw [dedupRun_cons_accept h1 h2]
        exact ih _ _ x (mem_pyInsert_of_mem hx)

theorem dedupRun_skip (md5 : String → String) (rs : List Entry) :
    ∀ (st : DedupState) (acc : List Entry) (r : Entry), keysIn md5 r st →
      r ∉ acc → r ∉ (dedupRun md5 rs st acc).2 := by
  induction rs with
  | nil => intro st acc r _ ha; simpa [dedupRun] using ha
  | cons x rs ih =>
    intro st acc r hk ha
    by_cases h1 : x.url ≠ "" ∧ x.url ∈ st.urls
    · rw [dedupRun_cons_skip_url h1]; exact ih st acc r hk ha
    · by_cases h2 : md5 (x.source ++ x.raw_text) ∈ st.hashes
      · rw [dedupRun_cons_skip_hash h1 h2]; exact ih st acc r hk ha
      · rw [dedupRun_cons_accept h1 h2]
        have hrx : r ≠ x := by
          rintro rfl
          rcases hk with hk | hk
          · exact h2 hk
          · exact h1 hk
        refine ih _ _ r ?_ ?_
        · rcases hk with hk | ⟨hne, hmem⟩
          · exact Or.inl (mem_pyInsert_of_mem hk)
          · refine Or.inr ⟨hne, ?_⟩
            split
            · exact mem_pyInsert_of_mem hmem
            · exact hmem
        · intro hmem
          rcases List.mem_append.mp hmem with hmem | hmem
          · exact ha hmem
          · exact hrx (List.mem_singleton.mp hmem)

theorem dedupRun_accepted_keys (md5 : String → String) (rs : List Entry) :
    ∀ (st : DedupState) (acc : List Entry),
      (∀ r ∈ acc, md5 (r.source ++ r.raw_text) ∈ st.hashes ∧
        (r.url ≠ "" → r.url ∈ st.urls)) →
      ∀ r ∈ (dedupRun md5 rs st acc).2,
        md5 (r.source ++ r.raw_text) ∈ (dedupRun md5 rs st acc).1.hashes ∧
        (r.url ≠ "" → r.url ∈ (dedupRun md5 rs st acc).1.urls) := by
  induction rs with
  | nil =>
    intro st acc hinv r hr
    simp only [dedupRun] at hr ⊢
    exact hinv r hr
  | cons x rs ih =>
    intro st acc hinv
    by_cases h1 : x.url ≠ "" ∧ x.url ∈ st.urls
    · rw [dedupRun_cons_skip_url h1]; exact ih st acc hinv
    · by_cases h2 : md5 (x.source ++ x.raw_text) ∈ st.hashes
      · rw [dedupRun_cons_skip_hash h1 h2]; exact ih st acc hinv
      · rw [dedupRun_cons_accept h1 h2]
        apply ih
        intro r hr
        rcases List.mem_append.mp hr with hr | hr
        · obtain ⟨hh, hu⟩ := hinv r hr
          refine ⟨mem_pyInsert_of_mem hh, fun hne => ?_⟩
          split
          · exact mem_pyInsert_of_mem (hu hne)
          · exact hu hne
        · obtain rfl := List.mem_singleton.mp hr
          refine ⟨mem_pyInsert_self, fun hne => ?_⟩
          rw [if_pos hne]
          exact mem_pyInsert_self

/-- Claim C4: within a run the dedup cache only grows; a record whose
(truthy) url or content hash is already cached is never accepted into
the analysis batch; every accepted record has its content hash (and its
url, when present) in the cache at the end of the filter step — before
any severity/confidence filtering — and is therefore skipped again in
every later cycle. -/
theorem dedup_cache_invariants (md5 : String → String) (st : DedupState)
    (rs : List Entry) :
    (∀ u ∈ st.urls, u ∈ (dedupFilter md5 st rs).1.urls)
    ∧ (∀ h ∈ st.hashes, h ∈ (dedupFilter md5 st rs).1.hashes)
    ∧ (∀ r : Entry, (md5 (r.source ++ r.raw_text) ∈ st.hashes
        ∨ (r.url ≠ "" ∧ r.url ∈ st.urls)) → r ∉ (dedupFilter md5 st rs).2)
    ∧ (∀ r ∈ (dedupFilter md5 st rs).2,
        md5 (r.source ++ r.raw_text) ∈ (dedupFilter md5 st rs).1.hashes
        ∧ (r.url ≠ "" → r.url ∈ (dedupFilter md5 st rs).1.urls))
    ∧ (∀ (rs₂ : List Entry) (r : Entry), r ∈ (dedupFilter md5 st rs).2 →
        r ∉ (dedupFilter md5 (dedupFilter md5 st rs).1 rs₂).2) := by
  refine ⟨fun u hu => dedupRun_urls_mono md5 rs st [] u hu,
    fun h hh => dedupRun_hashes_mono md5 rs st [] h hh,
    fun r hk => dedupRun_skip md5 rs st [] r hk (by simp),
    dedupRun_accepted_keys md5 rs st [] (by simp), ?_⟩
  intro rs₂ r hr
  have hkeys := dedupRun_accepted_keys md5 rs st [] (by simp) r hr
  exact dedupRun_skip md5 rs₂ (dedupFilter md5 st rs).1 [] r
    (Or.inl hkeys.1) (by simp)

/-- Witness for C4: a record whose content hash was already seen is
skipped. -/
theorem dedup_cache_invariants_witness :
    ({ source := "S", raw_text := "text", url := "http://new" } : Entry)
      ∉ (dedupFilter (fun s => s) { urls := ["http://seen"], hashes := ["Stext"] }
          [{ source := "S", raw_text := "text", url := "http://new" }]).2 :=
  (dedup_cache_invariants (fun s => s) { urls := ["http://seen"], hashes := ["Stext"] }
    [{ source := "S", raw_text := "text", url := "http://new" }]).2.2.1
    { source := "S", raw_text := "text", url := "http://new" } (Or.inl (by decide))

theorem list_map_self {f : String → String} :
    ∀ {l : List String}, (∀ u ∈ l, f u = u) → l.map f = l
  | [], _ => rfl
  | a :: t, h => by
    rw [List.map_cons, h a (List.mem_cons_self a t),
      list_map_self (fun u hu => h u (List.mem_cons_of_mem a hu))]

/-- Counterexample to claim C8: the persisted dedup state of the
content-hashing variant (`start_monitoring_free.py`) contains only the
URLs; reloading after saving drops every recorded content hash, so
load ∘ save is not the identity on a cache with a nonempty hash set. -/
theorem dedup_persistence_loses_hashes :
    loadProcessedData (saveProcessedData
      { urls := ["http://a.example/x"], hashes := ["9e107d9d372bb6826bd81d3542a419d6"] })
    ≠ { urls := ["http://a.example/x"], hashes := ["9e107d9d372bb6826bd81d3542a419d6"] } := by
  decide

/-- Claim C8 as amended: saving at the end of a cycle and reloading at
process start restores exactly the URL set (for URLs stable under
stripping), while the content-hash set is reset to empty — a restart
resumes with the URL history only. -/
theorem dedup_persistence_roundtrip (st : DedupState)
    (h : ∀ u ∈ st.urls, pyStrip u = u) :
    (loadProcessedData (saveProcessedData st)).urls = st.urls
    ∧ (loadProcessedData (saveProcessedData st)).hashes = [] := by
  constructor
  · show st.urls.map pyStrip = st.urls
    exact list_map_self h
  · rfl

/-- Witness for the amended C8. -/
theorem dedup_persistence_roundtrip_witness :
    (loadProcessedData (saveProcessedData
      { urls := ["http://a.example/x"], hashes := ["h1"] })).urls = ["http://a.example/x"]
    ∧ (loadProcessedData (saveProcessedData
      { urls := ["http://a.example/x"], hashes := ["h1"] })).hashes = [] :=
  dedup_persistence_roundtrip { urls := ["http://a.example/x"], hashes := ["h1"] }
    (by decide)

/-! ### Helper lemmas about the enhanced analyzer -/

theorem analyze_source {pr : String → String → Nat} {tg : Targets}
    {entry : Entry} {a : Alert} (h : analyze pr tg entry = some a) :
    a.source = entry.source := by
  simp only [analyze] at h
  split at h
  · exact absurd h (by simp)
  · split at h
    · exact absurd h (by simp)
    · obtain rfl := (Option.some.injEq _ _).mp h
      rfl

theorem applyCategoryRules_source (cfg : AlertConfig) (a : Alert) (c : String) :
    (applyCategoryRules cfg a c).source = a.source := by
  simp only [applyCategoryRules]
  split <;> split_ifs <;> rfl

theorem applyCategoryRules_source_reliability (cfg : AlertConfig) (a : Alert)
    (c : String) :
    (applyCategoryRules cfg a c).source_reliability = a.source_reliability := by
  simp only [applyCategoryRules]
  split <;> split_ifs <;> rfl

theorem adjust_source (cfg : AlertConfig) (a : Alert) :
    (adjustSeverityBySource cfg a).source = a.source := by
  simp only [adjustSeverityBySource]
  split_ifs <;> rfl

theorem adjust_source_reliability (cfg : AlertConfig) (a : Alert) :
    (adjustSeverityBySource cfg a).source_reliability
    = getSourceReliability cfg (baseSource a.source) := by
  simp only [adjustSeverityBySource]

/-- Counterexample to claim C9: the reliability attached in the enhanced
metadata is resolved for the record's *full* source string
(`basic_result['source']`), not for the base name used by the severity
downgrade. With source `"Forum-X"` and a reliability entry for
`"forum-x"`, the emitted alert carries metadata reliability 9/10 while
the base-name resolution (used by the downgrade and stored in
`source_reliability`) yields the default 1/2. -/
theorem enhanced_metadata_reliability_mismatch :
    ((enhancedAnalyze (fun _ _ => 0) { domains := ["sony.co.jp"] }
        { source_reliability := [("forum-x", mkRat 9 10)] } false
        { source := "Forum-X", raw_text := "sony.co.jp database dump", url := "u" }).map
      (fun a => a.ea_source_reliability) = some (mkRat 9 10))
    ∧ getSourceReliability { source_reliability := [("forum-x", mkRat 9 10)] }
        (baseSource "Forum-X") = mkRat 1 2
    ∧ ((enhancedAnalyze (fun _ _ => 0) { domains := ["sony.co.jp"] }
        { source_reliability := [("forum-x", mkRat 9 10)] } false
        { source := "Forum-X", raw_text := "sony.co.jp database dump", url := "u" }).map
      (fun a => a.source_reliability) = some (mkRat 1 2))
    ∧ mkRat 9 10 ≠ mkRat 1 2 := by decide

/-- Claim C9 as amended: for every alert emitted by the enhanced
analyzer, the metadata reliability is the one resolved for the record's
full source string, while the alert's `source_reliability` field — the
value the severity-downgrade decision uses — is resolved for the base
source name (the `-suffix` stripped). The two coincide only when the
two resolutions agree (e.g. when the source has no `-`). -/
theorem enhanced_metadata_reliability (pr : String → String → Nat)
    (tg : Targets) (cfg : AlertConfig) (wh : Bool) (entry : Entry) (a : Alert)
    (h : enhancedAnalyze pr tg cfg wh entry = some a) :
    a.ea_source_reliability = getSourceReliability cfg entry.source
    ∧ a.source_reliability = getSourceReliability cfg (baseSource entry.source) := by
  simp only [enhancedAnalyze] at h
  split at h
  · exact absurd h (by simp)
  · rename_i basic heq
    split at h
    · exact absurd h (by simp)
    · obtain rfl := (Option.some.injEq _ _).mp h
      constructor
      · dsimp only
        rw [adjust_source]
        split_ifs
        · rw [applyCategoryRules_source, analyze_source heq]
        · rw [analyze_source heq]
      · dsimp only
        rw [adjust_source_reliability]
        split_ifs
        · rw [applyCategoryRules_source, analyze_source heq]
        · rw [analyze_source heq]

/-- Witness for the amended C9 at a concrete configuration. -/
theorem enhanced_metadata_reliability_witness :
    mkRat 9 10
      = getSourceReliability { source_reliability := [("forum-x", mkRat 9 10)] } "Forum-X"
    ∧ mkRat 1 2
      = getSourceReliability { source_reliability := [("forum-x", mkRat 9 10)] }
          (baseSource "Forum-X") :=
  enhanced_metadata_reliability (fun _ _ => 0) { domains := ["sony.co.jp"] }
    { source_reliability := [("forum-x", mkRat 9 10)] } false
    { source := "Forum-X", raw_text := "sony.co.jp database dump", url := "u" }
    { source := "Forum-X", title := "", raw_text := "sony.co.jp database dump",
      url := "u", matched_term := "sony.co.jp", category := "Domain",
      confidence_score := 100, severity := "HIGH", alert := true,
      target_priority := "DEFAULT", target_category := "General",
      source_reliability := mkRat 1 2, category_override := false,
      reliability_adjusted := false, ea_priority_boost := false,
      ea_category_alert := false, ea_source_reliability := mkRat 9 10,
      ea_working_hours := false }
    (by decide)
